import Mathlib

/-!
# Verification of the meeting-mcp key-moment extraction and adaptive search core

This file is a shallow embedding, in Lean 4, of the heuristic core of the
`meeting-mcp` repository: the key-moment extraction pipeline of
`src/tools/links.ts` (chunking, importance scoring, conversation detection,
structural segments, ranking/deduplication) and the adaptive multi-tier
search orchestrator of the search tools file (`intelligentSearchTool`,
`searchVideoSegmentTool`, `searchTranscriptTool`, `updateRecentBots`),
together with theorems settling the specification's claims about them.

JavaScript idioms are modelled as follows:
* JS numbers holding timestamps/durations are `Int` (all claim inputs are
  integral), scores are `Nat`;
* `Array.prototype.sort` (stable since ES2019) is modelled by Mathlib's
  stable `List.insertionSort` — any two stable sorts under a total preorder
  produce the same list, so this choice is canonical;
* `String.prototype.includes`, `toLowerCase`, `trim`, and `split(/\s+/)`
  are modelled character-exactly on ASCII;
* the fixed time-extraction regexes of `intelligentSearchTool` are modelled
  by dedicated leftmost-match scanners (the patterns contain no
  backtracking-relevant ambiguity: the character classes `\s`, `\d`, `:` and
  the literal keywords are pairwise disjoint at every junction);
* a fallible store write is an `Except String Unit` value threaded to the
  point of the corresponding JS call; `try/catch` becomes a `match` on it.
-/

/-! ## String utilities (JS semantics) -/

/-- The ASCII whitespace characters matched by the JS regex class `\s`
(the inputs considered in the claims contain no exotic Unicode spaces). -/
def isWsChar (c : Char) : Bool :=
  c = ' ' || c = '\t' || c = '\n' || c = '\r'

/-- Worker for `jsSplitWs`: `cur` is the current (reversed) token, `inWs`
records whether the previous character was whitespace. -/
def jsSplitWsGo : List Char → List Char → Bool → List (List Char)
  | [], cur, _ => [cur.reverse]
  | c :: rest, cur, inWs =>
    if isWsChar c then
      if inWs then jsSplitWsGo rest [] true
      else cur.reverse :: jsSplitWsGo rest [] true
    else jsSplitWsGo rest (c :: cur) false

/-- JS `s.split(/\s+/)`: tokens between maximal whitespace runs, including an
empty token at a leading or trailing run, and `[""]` on the empty string. -/
def jsSplitWs (s : String) : List String :=
  (jsSplitWsGo s.toList [] false).map (fun cs => String.mk cs)

/-- JS `hay.includes(needle)`: substring containment. -/
def jsIncludes (hay needle : String) : Bool :=
  (hay.toList.tails).any (fun t => needle.toList.isPrefixOf t)

/-- JS `s.toLowerCase()` on ASCII (character-wise lowering). -/
def jsToLower (s : String) : String :=
  String.mk (s.toList.map Char.toLower)

/-- JS `s.trim()`: strip leading and trailing whitespace. -/
def jsTrim (s : String) : String :=
  String.mk (((s.toList.dropWhile isWsChar).reverse.dropWhile isWsChar).reverse)

/-- JS `words.join(" ")`. -/
def joinSpace : List String → String
  | [] => ""
  | [w] => w
  | w :: rest => w ++ " " ++ joinSpace rest

/-- Worker for `insertionDedup`: `seen` is the set of values already added. -/
def insertionDedupGo : List String → List String → List String
  | [], _ => []
  | x :: xs, seen =>
    if x ∈ seen then insertionDedupGo xs seen
    else x :: insertionDedupGo xs (seen ++ [x])

/-- First-occurrence deduplication: the iteration order of a JS `Set`
built by successive `add` calls. -/
def insertionDedup (l : List String) : List String :=
  insertionDedupGo l []

/-- JS `s.split(' ')[0]` (first component of a split on single spaces,
`""` for the empty string): the prefix before the first space. -/
def firstWord (s : String) : String :=
  String.mk (s.toList.takeWhile (fun c => c ≠ ' '))

/-! ## Data model -/

/-- One transcript utterance as delivered by the backend API:
`{speaker, start_time, end_time?, words: [{text}]}` (`words` is kept as the
list of its `text` fields). -/
structure Transcript where
  speaker : String
  start_time : Int
  end_time : Option Int := none
  words : List String
deriving DecidableEq, Repr, Inhabited

/-- `transcript.words.map(w => w.text).join(" ")`. -/
def textOf (t : Transcript) : String :=
  joinSpace t.words

/-- The `type` discriminator of a candidate segment. -/
inductive CType where
  | content
  | conversation
  | structural
deriving DecidableEq, Repr

/-- A candidate key-moment segment produced by the scorer, the conversation
detector or the structural extractor. -/
structure Candidate where
  timestamp : Int
  speaker : String
  text : String
  importance : Nat
  ctype : CType
  description : String
deriving DecidableEq, Repr

/-! ## Transcript chunker (`groupTranscriptsIntoChunks`) -/

/-- Loop body of `groupTranscriptsIntoChunks`: `cur` is `currentChunk`, `cs`
is `chunkStartTime`.  A segment joins the current chunk when the chunk is
empty or `segment.start_time - chunkStartTime <= maxChunkDuration`; otherwise
the current chunk is emitted and the segment starts a new chunk whose
reference time is its own start time. -/
def groupGo (d : Int) : List Transcript → List Transcript → Int → List (List Transcript)
  | [], cur, _ => if cur.isEmpty then [] else [cur]
  | s :: rest, cur, cs =>
    if cur.isEmpty || decide (s.start_time - cs ≤ d) then
      groupGo d rest (cur ++ [s]) cs
    else
      cur :: groupGo d rest [s] s.start_time

/-- `groupTranscriptsIntoChunks(transcripts, maxChunkDuration)`: greedy
grouping of time-ordered segments into bounded-duration chunks. -/
def groupTranscriptsIntoChunks (ts : List Transcript) (d : Int) : List (List Transcript) :=
  match ts with
  | [] => []
  | t :: _ => groupGo d ts [] t.start_time

/-! ## Segment importance scorer (`findImportantSegments`, `determineDescription`) -/

/-- `regex.test(text)` for a case-insensitive alternation of literals:
some alternative occurs as a substring of the text. -/
def testAny (alts : List String) (text : String) : Bool :=
  alts.any (fun a => jsIncludes (jsToLower text) a)

/-- Alternatives of `/(?:important|key|critical|essential|significant|main|major)/i`. -/
def importanceAlts : List String :=
  ["important", "key", "critical", "essential", "significant", "main", "major"]

/-- Alternatives of
`/(?:summarize|summary|summarizing|conclude|conclusion|in conclusion|to sum up)/i`. -/
def summaryAlts : List String :=
  ["summarize", "summary", "summarizing", "conclude", "conclusion", "in conclusion", "to sum up"]

/-- Alternatives of
`/(?:need to|have to|must|should|will|going to|plan to|action item)/i`. -/
def obligationAlts : List String :=
  ["need to", "have to", "must", "should", "will", "going to", "plan to", "action item"]

/-- Alternatives of
`/(?:agree|disagree|consensus|decision|decide|decided|determined)/i`. -/
def decisionAlts : List String :=
  ["agree", "disagree", "consensus", "decision", "decide", "decided", "determined"]

/-- Alternatives of `/(?:problem|issue|challenge|obstacle|difficulty)/i`. -/
def problemAlts : List String :=
  ["problem", "issue", "challenge", "obstacle", "difficulty"]

/-- Alternatives of `/(?:solution|resolve|solve|approach|strategy|tactic)/i`. -/
def solutionAlts : List String :=
  ["solution", "resolve", "solve", "approach", "strategy", "tactic"]

/-- Alternatives of
`/(?:next steps|follow up|get back|circle back|future|next time)/i`. -/
def nextStepsAlts : List String :=
  ["next steps", "follow up", "get back", "circle back", "future", "next time"]

/-- The `importancePatterns` weight table of `findImportantSegments`. -/
def importancePatterns : List (List String × Nat) :=
  [(importanceAlts, 3), (summaryAlts, 4), (obligationAlts, 2), (decisionAlts, 3),
   (problemAlts, 2), (solutionAlts, 2), (nextStepsAlts, 3)]

/-- `text.split(/\s+/).length`. -/
def wordCount (text : String) : Nat :=
  (jsSplitWs text).length

/-- The `importanceScore` computed per segment in `findImportantSegments`:
accumulate the weight of every matching pattern, then add the length bonus
`Math.min(2, Math.floor(words / 20))`. -/
def contentScore (text : String) : Nat :=
  (importancePatterns.foldl
    (fun acc p => if testAny p.1 text then acc + p.2 else acc) 0)
  + min 2 (wordCount text / 20)

/-- Alternatives of the `determineDescription` next-steps regex
`/(?:next steps|follow up|moving forward|future|plan)/i` (note: a different
set from the scoring pattern). -/
def descNextStepsAlts : List String :=
  ["next steps", "follow up", "moving forward", "future", "plan"]

/-- `determineDescription(text, importance)`: fixed priority chain of
content-based descriptions, falling back to a score-based label. -/
def determineDescription (text : String) (importance : Nat) : String :=
  if testAny summaryAlts text then "Summary or conclusion"
  else if testAny descNextStepsAlts text then "Discussion about next steps"
  else if testAny decisionAlts text then "Decision point"
  else if testAny problemAlts text then "Problem discussion"
  else if testAny solutionAlts text then "Solution discussion"
  else if 5 < importance then "Highly important discussion"
  else if 3 < importance then "Important point"
  else "Notable discussion"

/-- `transcript.speaker || "Unknown speaker"`. -/
def speakerOrUnknown (s : String) : String :=
  if s = "" then "Unknown speaker" else s

/-- `findImportantSegments(transcripts)`: emit a `content` candidate for every
segment whose importance score is positive. -/
def findImportantSegments : List Transcript → List Candidate
  | [] => []
  | t :: rest =>
    if 0 < contentScore (textOf t) then
      { timestamp := t.start_time
        speaker := speakerOrUnknown t.speaker
        text := textOf t
        importance := contentScore (textOf t)
        ctype := .content
        description := determineDescription (textOf t) (contentScore (textOf t)) }
        :: findImportantSegments rest
    else findImportantSegments rest

/-! ## Conversation detector (`findConversationalExchanges`) -/

/-- Sliding 3-segment window of `findConversationalExchanges`: on a window
with at least two distinct non-empty speakers spanning under 60 seconds, emit
one `conversation` candidate and skip past the whole window (`i += 2` plus
the loop increment); otherwise advance by one. -/
def convGo : List Transcript → List Candidate
  | s1 :: rest@(s2 :: s3 :: rest3) =>
    let speakers := insertionDedup ([s1.speaker, s2.speaker, s3.speaker].filter (fun s => s ≠ ""))
    if 2 ≤ speakers.length ∧ s3.start_time - s1.start_time < 60 then
      { timestamp := s1.start_time
        speaker := speakerOrUnknown s1.speaker
        text := textOf s1
        importance := 2 + speakers.length
        ctype := .conversation
        description := "Active discussion with " ++ toString speakers.length ++ " participants" }
        :: convGo rest3
    else convGo rest
  | _ => []

/-- `findConversationalExchanges(transcripts)` (requires at least 3 segments). -/
def findConversationalExchanges (ts : List Transcript) : List Candidate :=
  if ts.length < 3 then [] else convGo ts

/-! ## Structural extractor and pass-through scorer -/

/-- `getStructuralSegments(transcripts)`: the first segment as
"Meeting start" (importance 5) and, when its timestamp differs from the
first's, the last segment as "Meeting conclusion" (importance 4). -/
def getStructuralSegments (ts : List Transcript) : List Candidate :=
  match ts with
  | [] => []
  | first :: rest =>
    { timestamp := first.start_time
      speaker := speakerOrUnknown first.speaker
      text := textOf first
      importance := 5
      ctype := .structural
      description := "Meeting start" }
    :: (if rest = [] then []
        else
          let last := (first :: rest).getLast (by simp)
          if last.start_time ≠ first.start_time then
            [{ timestamp := last.start_time
               speaker := speakerOrUnknown last.speaker
               text := textOf last
               importance := 4
               ctype := .structural
               description := "Meeting conclusion" }]
          else [])

/-- `scoreSegments(segments)`: the map is the identity (the function is a
placeholder in the source). -/
def scoreSegments (segments : List Candidate) : List Candidate :=
  if segments.isEmpty then [] else segments.map (fun s => s)

/-! ## Deduplicator and ranking pipeline -/

/-- Loop of `deduplicateSegments`: `used` is `usedTimeRanges`; a segment is
kept unless its timestamp is within 30 seconds of an already-kept timestamp,
and kept timestamps are appended to `used`. -/
def dedupGo : List Candidate → List Int → List Candidate
  | [], _ => []
  | s :: rest, used =>
    if used.any (fun range => |s.timestamp - range| < 30) then
      dedupGo rest used
    else
      s :: dedupGo rest (used ++ [s.timestamp])

/-- `deduplicateSegments(segments)` (the source returns lists of length ≤ 1
unchanged before entering the loop). -/
def deduplicateSegments (segments : List Candidate) : List Candidate :=
  if segments.length ≤ 1 then segments else dedupGo segments []

/-- The comparator `(a, b) => b.importance - a.importance` of the importance
sort: `a` may precede `b` iff `b.importance ≤ a.importance`. -/
def impGE (a b : Candidate) : Prop := b.importance ≤ a.importance

instance : DecidableRel impGE := fun a b => Nat.decLe b.importance a.importance

instance : IsTotal Candidate impGE := ⟨fun a b => Nat.le_total b.importance a.importance⟩

instance : IsTrans Candidate impGE := ⟨fun _ _ _ hab hbc => le_trans hbc hab⟩

/-- The comparator `(a, b) => a.timestamp - b.timestamp` of the chronological
re-sort. -/
def tsLE (a b : Candidate) : Prop := a.timestamp ≤ b.timestamp

instance : DecidableRel tsLE := fun a b => Int.decLe a.timestamp b.timestamp

instance : IsTotal Candidate tsLE := ⟨fun a b => Int.le_total a.timestamp b.timestamp⟩

instance : IsTrans Candidate tsLE := ⟨fun _ _ _ hab hbc => le_trans hab hbc⟩

/-- Steps 5–6 of `findKeyMomentsTool.execute`: sort all candidates by
descending importance (stable), deduplicate, re-sort chronologically, then
truncate to the first `maxMoments` entries of the chronological list. -/
def rankMoments (candidates : List Candidate) (maxMoments : Nat) : List Candidate :=
  let byImportance := List.insertionSort impGE candidates
  let deduped := deduplicateSegments byImportance
  let chronological := List.insertionSort tsLE deduped
  chronological.take maxMoments

/-- The comparator `(a, b) => a.start_time - b.start_time` used to pre-sort
the raw transcripts. -/
def startLE (a b : Transcript) : Prop := a.start_time ≤ b.start_time

instance : DecidableRel startLE := fun a b => Int.decLe a.start_time b.start_time

instance : IsTotal Transcript startLE := ⟨fun a b => Int.le_total a.start_time b.start_time⟩

instance : IsTrans Transcript startLE := ⟨fun _ _ _ hab hbc => le_trans hab hbc⟩

/-- The key-moment extraction pipeline of `findKeyMomentsTool.execute`
(steps 1–6): sort transcripts chronologically, chunk into 5-minute windows,
collect content and conversation candidates per chunk, append structural
candidates, then rank/deduplicate/truncate. -/
def findKeyMomentsPipeline (transcripts : List Transcript) (maxMoments : Nat) : List Candidate :=
  let sorted := List.insertionSort startLE transcripts
  let chunks := groupTranscriptsIntoChunks sorted 300
  let candidates := chunks.foldl
    (fun acc chunk => acc ++ findImportantSegments chunk ++ findConversationalExchanges chunk) []
  let scored := scoreSegments candidates
  let allSegments := scored ++ getStructuralSegments sorted
  rankMoments allSegments maxMoments

/-! ## Video-segment search (`searchVideoSegmentTool`) -/

/-- The optional `startTime`/`endTime` pair threaded through
`intelligentSearchTool` as `timeRange`. -/
structure TimeRange where
  startTime : Option Int := none
  endTime : Option Int := none
deriving DecidableEq, Repr

/-- The time filter of `searchVideoSegmentTool`: a segment is dropped if it
starts before `startTime` or if its (estimated) end exceeds `endTime`; absent
ends are estimated as `start_time + 5`. -/
def timeFilter (tr : TimeRange) (ts : List Transcript) : List Transcript :=
  if tr.startTime.isSome || tr.endTime.isSome then
    ts.filter (fun t =>
      let endT := t.end_time.getD (t.start_time + 5)
      (match tr.startTime with
       | some s => decide (s ≤ t.start_time)
       | none => true)
      && (match tr.endTime with
          | some e => decide (endT ≤ e)
          | none => true))
  else ts

/-- The speaker filter of `searchVideoSegmentTool`: exact case-insensitive
match against the known (trimmed, non-empty) speakers first, else fuzzy
matching (speaker contains the query, or the query contains the speaker's
first name), else a plain substring fallback. -/
def speakerFilter (allSpeakers : List String) (speakerArg : String)
    (ts : List Transcript) : List Transcript :=
  let spLower := (jsToLower speakerArg)
  if allSpeakers.any (fun s => jsToLower s = spLower) then
    ts.filter (fun t => (jsToLower t.speaker) = spLower)
  else
    let matching := allSpeakers.filter (fun s =>
      jsIncludes (jsToLower s) spLower || jsIncludes spLower (firstWord (jsToLower s)))
    if matching ≠ [] then
      ts.filter (fun t => matching.contains t.speaker)
    else
      ts.filter (fun t => jsIncludes (jsToLower t.speaker) spLower)

/-- Core of `searchVideoSegmentTool.execute`: apply the time filter then the
speaker filter; `none` models the "No matching video segments found" return,
`some` the three-block segment listing. -/
def searchVideoSegment (ts : List Transcript) (tr : TimeRange)
    (speaker : Option String) : Option (List Transcript) :=
  let allSpeakers := insertionDedup
    ((ts.filter (fun t => t.speaker ≠ "")).map (fun t => jsTrim t.speaker))
  let f1 := timeFilter tr ts
  let f2 := match speaker with
    | none => f1
    | some sp => speakerFilter allSpeakers sp f1
  if f2 = [] then none else some f2

/-- Core of `searchTranscriptTool.execute`: case-insensitive substring search
of the query against each segment's text; `none` models the
`No results found for "query"` return. -/
def searchTranscript (ts : List Transcript) (query : String) : Option (List Transcript) :=
  let results := ts.filter (fun t => jsIncludes (jsToLower (textOf t)) (jsToLower query))
  if results = [] then none else some results

/-! ## Adaptive search orchestrator (`intelligentSearchTool`) -/

/-- The observable outcome of `intelligentSearchTool.execute`, one
constructor per distinct return site of the tiered search. -/
inductive SearchOutcome where
  /-- Tier 1: segments of the speaker that also contain a search term. -/
  | speakerTermMatches (segs : List Transcript)
  /-- Tier 2: the speaker-filtered segment listing. -/
  | speakerSegments (segs : List Transcript)
  /-- Tier 3: segments matching at least half of the multi-word terms. -/
  | multiTermMatches (segs : List Transcript)
  /-- Tier 4: the plain transcript search found matches. -/
  | transcriptMatches (segs : List Transcript)
  /-- Tier 4: the plain transcript search found nothing
  (`No results found for "query"`). -/
  | noResults (query : String)
  /-- Tier 5: the time/speaker-filtered segment listing. -/
  | segmentListing (segs : List Transcript)
  /-- Tier 5: even the unrestricted listing is empty
  (`No matching video segments found`). -/
  | noSegments
deriving DecidableEq, Repr

/-- Tier 1 of `intelligentSearchTool`: with a speaker and non-empty search
terms, fetch the speaker's segments; if any exist, re-filter the transcripts
by the tier's own fuzzy speaker match and keep segments containing ANY
search-term word.  `none` means fall through. -/
def tier1Result (ts : List Transcript) (speaker : Option String) (tr : TimeRange)
    (searchTerms : String) : Option SearchOutcome :=
  match speaker with
  | none => none
  | some sp =>
    if (jsTrim searchTerms) ≠ "" then
      match searchVideoSegment ts tr (some sp) with
      | none => none
      | some _ =>
        let spLower := (jsToLower sp)
        let speakerMatch := ts.filter (fun t =>
          jsIncludes (jsToLower t.speaker) spLower
          || jsIncludes spLower (firstWord (jsToLower t.speaker)))
        let searchTermWords := jsSplitWs (jsToLower searchTerms)
        let filteredByTerms := speakerMatch.filter (fun t =>
          searchTermWords.any (fun w => jsIncludes (jsToLower (textOf t)) w))
        if filteredByTerms ≠ [] then some (.speakerTermMatches filteredByTerms) else none
    else none

/-- Tier 2: speaker-only search via `searchVideoSegmentTool`; `none` means
fall through. -/
def tier2Result (ts : List Transcript) (speaker : Option String)
    (tr : TimeRange) : Option SearchOutcome :=
  match speaker with
  | none => none
  | some sp => (searchVideoSegment ts tr (some sp)).map .speakerSegments

/-- Tier 3: with more than one search word of length > 2, keep segments in
which at least `max(1, ⌊words/2⌋)` of the words occur; `none` means fall
through. -/
def tier3Result (ts : List Transcript) (searchTerms : String) : Option SearchOutcome :=
  if (jsTrim searchTerms) ≠ "" then
    let searchWords := (jsSplitWs (jsToLower searchTerms)).filter (fun w => 2 < w.length)
    if 1 < searchWords.length then
      let multiTermResults := ts.filter (fun t =>
        let text := (jsToLower (textOf t))
        let matchCount := (searchWords.filter (fun w => jsIncludes text w)).length
        max 1 (searchWords.length / 2) ≤ matchCount)
      if multiTermResults ≠ [] then some (.multiTermMatches multiTermResults) else none
    else none
  else none

/-- The tier chain of `intelligentSearchTool.execute` after parameter
resolution.  Tiers 1–3 fall through when empty; Tier 4 (the plain transcript
search) RETURNS UNCONDITIONALLY whenever the residual search terms are
non-blank — even its `No results found` outcome — so Tier 5 (the unfiltered
segment listing) is reached only for blank search terms. -/
def intelligentSearchCore (ts : List Transcript) (speaker : Option String)
    (tr : TimeRange) (searchTerms : String) : SearchOutcome :=
  match tier1Result ts speaker tr searchTerms with
  | some r => r
  | none =>
    match tier2Result ts speaker tr with
    | some r => r
    | none =>
      match tier3Result ts searchTerms with
      | some r => r
      | none =>
        if (jsTrim searchTerms) ≠ "" then
          match searchTranscript ts searchTerms with
          | some results => .transcriptMatches results
          | none => .noResults searchTerms
        else
          match searchVideoSegment ts tr speaker with
          | some segs => .segmentListing segs
          | none => .noSegments

/-! ## Time-pattern extraction (`timePatterns` of `intelligentSearchTool`)

The four fixed regexes
`/between\s+(\d+)(?::(\d+))?\s+(?:and|to)\s+(\d+)(?::(\d+))?/i`,
`/after\s+(\d+)(?::(\d+))?/i`, `/before\s+(\d+)(?::(\d+))?/i` and
`/around\s+(\d+)(?::(\d+))?/i` are implemented as leftmost-match scanners:
at every junction the pattern's pieces (`\s+`, `\d+`, `:`, keyword letters)
start with pairwise-disjoint character sets, so greedy scanning without
backtracking computes exactly the regex engine's match. -/

/-- Match a literal case-insensitively at the head of the input and return
the rest. -/
def litCI : List Char → List Char → Option (List Char)
  | [], s => some s
  | _ :: _, [] => none
  | c :: cs, x :: xs => if c.toLower = x.toLower then litCI cs xs else none

/-- Match `\s+` at the head of the input (greedy). -/
def ws1 : List Char → Option (List Char)
  | [] => none
  | x :: xs => if isWsChar x then some (xs.dropWhile isWsChar) else none

/-- The numeric value of a digit string. -/
def natOfDigits (ds : List Char) : Nat :=
  ds.foldl (fun n c => 10 * n + (c.toNat - 48)) 0

/-- Match `(\d+)` at the head of the input (greedy) and return its value. -/
def digits1 (s : List Char) : Option (Nat × List Char) :=
  let ds := s.takeWhile Char.isDigit
  if ds.isEmpty then none else some (natOfDigits ds, s.dropWhile Char.isDigit)

/-- Match the optional group `(?::(\d+))?` at the head of the input. -/
def optColonDigits (s : List Char) : Option Nat × List Char :=
  match s with
  | ':' :: rest =>
    match digits1 rest with
    | some (n, r) => (some n, r)
    | none => (none, s)
  | _ => (none, s)

/-- Captures `(M, S?)` of `KEYWORD\s+(\d+)(?::(\d+))?` anchored at the head
of the input. -/
def timeCapturesAt (keyword : String) (s : List Char) : Option (Nat × Option Nat) :=
  match litCI keyword.toList s with
  | none => none
  | some r1 =>
    match ws1 r1 with
    | none => none
    | some r2 =>
      match digits1 r2 with
      | none => none
      | some (n1, r3) => some (n1, (optColonDigits r3).1)

/-- Captures of the `between` pattern anchored at the head of the input:
both time components, separated by `\s+(?:and|to)\s+`. -/
def betweenCapturesAt (s : List Char) : Option ((Nat × Option Nat) × (Nat × Option Nat)) :=
  match litCI "between".toList s with
  | none => none
  | some r1 =>
    match ws1 r1 with
    | none => none
    | some r2 =>
      match digits1 r2 with
      | none => none
      | some (n1, r3) =>
        let (o1, r4) := optColonDigits r3
        match ws1 r4 with
        | none => none
        | some r5 =>
          match (litCI "and".toList r5).orElse (fun _ => litCI "to".toList r5) with
          | none => none
          | some r6 =>
            match ws1 r6 with
            | none => none
            | some r7 =>
              match digits1 r7 with
              | none => none
              | some (n2, r8) => some ((n1, o1), (n2, (optColonDigits r8).1))

/-- Leftmost match: try the anchored matcher at every suffix, left to right
(the scan order of the JS regex engine). -/
def scanFor {β : Type} (f : List Char → Option β) : List Char → Option β
  | [] => f []
  | s@(_ :: rest) =>
    match f s with
    | some b => some b
    | none => scanFor f rest

/-- First match of the `after` pattern in the query. -/
def matchAfter (q : String) : Option (Nat × Option Nat) :=
  scanFor (timeCapturesAt "after") q.toList

/-- First match of the `before` pattern in the query. -/
def matchBefore (q : String) : Option (Nat × Option Nat) :=
  scanFor (timeCapturesAt "before") q.toList

/-- First match of the `around` pattern in the query. -/
def matchAround (q : String) : Option (Nat × Option Nat) :=
  scanFor (timeCapturesAt "around") q.toList

/-- First match of the `between` pattern in the query. -/
def matchBetween (q : String) : Option ((Nat × Option Nat) × (Nat × Option Nat)) :=
  scanFor betweenCapturesAt q.toList

/-- `parseInt(match[1]) * 60 + (match[2] ? parseInt(match[2]) : 0)`. -/
def minutesToSeconds (m : Nat × Option Nat) : Int :=
  (m.1 * 60 + m.2.getD 0 : Nat)

/-- The `timePatterns` loop of `intelligentSearchTool.execute`: the first
pattern (in the fixed order between/after/before/around) that matches the
query overwrites the corresponding field(s) of the time range and the loop
breaks; a query matching no pattern leaves the range unchanged. -/
def applyTimePatterns (q : String) (tr : TimeRange) : TimeRange :=
  match matchBetween q with
  | some (a, b) => { startTime := some (minutesToSeconds a), endTime := some (minutesToSeconds b) }
  | none =>
    match matchAfter q with
    | some m => { tr with startTime := some (minutesToSeconds m) }
    | none =>
      match matchBefore q with
      | some m => { tr with endTime := some (minutesToSeconds m) }
      | none =>
        match matchAround q with
        | some m =>
          { startTime := some (max 0 (minutesToSeconds m - 60))
            endTime := some (minutesToSeconds m + 60) }
        | none => tr

/-! ## Filter resolution of `intelligentSearchTool` -/

/-- The recognised fields of the optional `filters` record. -/
structure Filters where
  speaker : Option String := none
  startTime : Option Int := none
  endTime : Option Int := none
deriving DecidableEq, Repr

/-- Parameter resolution of `intelligentSearchTool.execute` (the code before
the tier chain): explicit filters are read first, then the time-pattern loop
overwrites the time range from the query, and the speaker-pattern loop runs
only when no speaker is set yet.  `querySpeaker` is the result of the
speaker-pattern loop on the query (the four `/what did NAME say/`-style
regexes), supplied as an input. -/
def resolveParams (filters : Option Filters) (query : String)
    (querySpeaker : Option String) : Option String × TimeRange :=
  let speaker0 : Option String :=
    match filters with
    | some f =>
      match f.speaker with
      | some s => if s ≠ "" then some s else none
      | none => none
    | none => none
  let tr0 : TimeRange :=
    match filters with
    | some f => { startTime := f.startTime, endTime := f.endTime }
    | none => {}
  let tr1 := applyTimePatterns query tr0
  let speaker1 :=
    match speaker0 with
    | some s => some s
    | none => querySpeaker
  (speaker1, tr1)

/-! ## Recent-bots tracking (`updateRecentBots`) -/

/-- The per-request session object (`ExtendedSessionAuth`). -/
structure Session where
  apiKey : String := ""
  recentBotIds : Option (List String) := none
deriving DecidableEq, Repr

/-- The `recentBotIds` update of `updateRecentBots`: remove the id if
present, prepend it, and cut the list back to the five most recent ids. -/
def updateIds (ids : List String) (botId : String) : List String :=
  let removed := ids.filter (fun id => id ≠ botId)
  let fronted := botId :: removed
  if 5 < fronted.length then fronted.take 5 else fronted

/-- `updateRecentBots(session, botId, metadata)`: skip absent sessions,
update `recentBotIds` in place, then attempt the persistent `db.trackBot`
write — whose failure is caught and swallowed inside the function, leaving
the already-updated session intact. -/
def updateRecentBots (session : Option Session) (botId : String)
    (trackBot : Except String Unit) : Option Session :=
  match session with
  | none => none
  | some s =>
    let ids := updateIds (s.recentBotIds.getD []) botId
    match trackBot with
    | .ok _ => some { s with recentBotIds := some ids }
    | .error _ => some { s with recentBotIds := some ids }

/-- The tool-level wiring of `intelligentSearchTool.execute`: the tracking
update is attempted under a `try/catch` whose handler only logs, and the
tier chain then runs on the transcripts regardless; the pair is
(tool result, session after tracking). -/
def runIntelligentSearch (trackBot : Except String Unit) (session : Option Session)
    (botId : String) (ts : List Transcript) (speaker : Option String)
    (tr : TimeRange) (searchTerms : String) : SearchOutcome × Option Session :=
  let session' := updateRecentBots session botId trackBot
  (intelligentSearchCore ts speaker tr searchTerms, session')

/-- The tool-level wiring of `searchTranscriptTool.execute`: same
tracking-then-search shape as `runIntelligentSearch`. -/
def runSearchTranscript (trackBot : Except String Unit) (session : Option Session)
    (botId : String) (ts : List Transcript) (query : String) :
    Option (List Transcript) × Option Session :=
  let session' := updateRecentBots session botId trackBot
  (searchTranscript ts query, session')

/-! ## Topic section of the `findKeyMoments` report -/

/-- The `granularity` argument of `findKeyMomentsTool`. -/
inductive Granularity where
  | high
  | medium
  | low
deriving DecidableEq, Repr

/-- `granularity === "high" ? 10 : granularity === "medium" ? 7 : 5`. -/
def topicLimit : Granularity → Nat
  | .high => 10
  | .medium => 7
  | .low => 5

/-- The "Main Topics Discussed" section of the `findKeyMoments` report:
`none` when there are no unique topics (the section is omitted), otherwise
the first `topicLimit` unique topics that get displayed. -/
def mainTopicsSection (uniqueTopics : List String) (g : Granularity) : Option (List String) :=
  if 0 < uniqueTopics.length then some (uniqueTopics.take (topicLimit g)) else none

/-! ## Specification-side definitions

These re-state, in the specification's own words, the behaviour that the
refinement claims compare against the source embedding above. -/

/-- Spec §4.3: the importance score is the SUM of the weights of all
matching categories (importance 3, summary 4, obligation 2, decision 3,
problem 2, solution 2, next-steps 3) plus the length bonus
`min(2, floor(wordCount / 20))`. -/
def specContentScore (text : String) : Nat :=
  (if testAny importanceAlts text then 3 else 0)
  + (if testAny summaryAlts text then 4 else 0)
  + (if testAny obligationAlts text then 2 else 0)
  + (if testAny decisionAlts text then 3 else 0)
  + (if testAny problemAlts text then 2 else 0)
  + (if testAny solutionAlts text then 2 else 0)
  + (if testAny nextStepsAlts text then 3 else 0)
  + min 2 (wordCount text / 20)

/-- Spec §4.3: the description priority rule — summary/conclusion language
first, then next-steps language, then decision, problem, solution, else the
score-based label. -/
def specDescription (text : String) (importance : Nat) : String :=
  if testAny summaryAlts text then "Summary or conclusion"
  else if testAny descNextStepsAlts text then "Discussion about next steps"
  else if testAny decisionAlts text then "Decision point"
  else if testAny problemAlts text then "Problem discussion"
  else if testAny solutionAlts text then "Solution discussion"
  else if 5 < importance then "Highly important discussion"
  else if 3 < importance then "Important point"
  else "Notable discussion"

/-- Spec §4.3: candidates are exactly the segments whose score is positive,
projected to a `content` candidate with that score and the priority-rule
description. -/
def specImportantSegments (ts : List Transcript) : List Candidate :=
  (ts.filter (fun t => 0 < specContentScore (textOf t))).map (fun t =>
    { timestamp := t.start_time
      speaker := speakerOrUnknown t.speaker
      text := textOf t
      importance := specContentScore (textOf t)
      ctype := .content
      description := specDescription (textOf t) (specContentScore (textOf t)) })

/-- Spec §4.5 step 2 wording: walk the list in order, keep a segment unless
its timestamp is within 30 seconds (absolute difference) of a timestamp
already accepted; accepted timestamps accumulate as the walk proceeds. -/
def specDedupGo : List Candidate → List Int → List Candidate
  | [], _ => []
  | s :: rest, accepted =>
    if accepted.any (fun t => |s.timestamp - t| < 30) then
      specDedupGo rest accepted
    else
      s :: specDedupGo rest (s.timestamp :: accepted)

/-- Spec §4.5 step 2: deduplication starting from no accepted timestamps. -/
def specDedup (segments : List Candidate) : List Candidate :=
  specDedupGo segments []

/-! ## Concrete inputs used by the claims -/

/-- The three-segment transcript of the spec's end-to-end scenario (§8). -/
def exTranscript : List Transcript :=
  [{ speaker := "A", start_time := 0, words := ["Let's", "start", "the", "meeting"] },
   { speaker := "B", start_time := 20,
     words := ["I", "think", "the", "budget", "is", "a", "key", "issue", "we", "must", "resolve"] },
   { speaker := "A", start_time := 600, words := ["In", "conclusion,", "thanks", "everyone"] }]

/-- Candidates at timestamps [10, 50, 90, 500, 900] with importances
[1, 9, 1, 1, 1] (the truncation-after-chronological-sort scenario). -/
def truncationCands : List Candidate :=
  [⟨10, "", "", 1, .content, ""⟩, ⟨50, "", "", 9, .content, ""⟩, ⟨90, "", "", 1, .content, ""⟩,
   ⟨500, "", "", 1, .content, ""⟩, ⟨900, "", "", 1, .content, ""⟩]

/-- Candidates `[{t=100, imp=5}, {t=110, imp=3}, {t=200, imp=1}]` (the
dedup order-dependence scenario). -/
def dedupCands : List Candidate :=
  [⟨100, "", "", 5, .content, ""⟩, ⟨110, "", "", 3, .content, ""⟩, ⟨200, "", "", 1, .content, ""⟩]

/-- A one-segment meeting used to exercise the tier chain: the text contains
neither "zebra" nor any speaker/time phrase. -/
def tierTs : List Transcript :=
  [{ speaker := "Alice", start_time := 0, words := ["hello", "world"] }]

/-! ## Helper lemmas -/

/-- The folded weight accumulation of `findImportantSegments` equals the
explicit per-category sum of the specification. -/
theorem contentScore_eq_spec (text : String) : contentScore text = specContentScore text := by
  have step : ∀ (l : List (List String × Nat)) (acc : Nat),
      l.foldl (fun acc p => if testAny p.1 text then acc + p.2 else acc) acc
        = acc + (l.map (fun p => if testAny p.1 text then p.2 else 0)).sum := by
    intro l
    induction l with
    | nil => intro acc; simp
    | cons p rest ih =>
      intro acc
      simp only [List.foldl_cons, List.map_cons, List.sum_cons]
      by_cases h : testAny p.1 text
      · rw [if_pos h, if_pos h, ih]; omega
      · rw [if_neg h, if_neg h, ih]; omega
  simp only [contentScore, specContentScore, step, importancePatterns, List.map_cons,
    List.map_nil, List.sum_cons, List.sum_nil]
  omega

/-- `determineDescription` computes the specification's priority rule. -/
theorem determineDescription_eq_spec (text : String) (importance : Nat) :
    determineDescription text importance = specDescription text importance := rfl

/-- The scorer loop is the spec's filter-and-project description of it. -/
theorem findImportantSegments_eq_spec (ts : List Transcript) :
    findImportantSegments ts = specImportantSegments ts := by
  induction ts with
  | nil => rfl
  | cons t rest ih =>
    by_cases h : 0 < specContentScore (textOf t)
    · simp [findImportantSegments, specImportantSegments, List.filter_cons, h, ih,
        contentScore_eq_spec, determineDescription_eq_spec]
    · simp [findImportantSegments, specImportantSegments, List.filter_cons, h, ih,
        contentScore_eq_spec, determineDescription_eq_spec]

/-- The dedup loop is insensitive to the representation of the accepted-
timestamp collection: only membership matters. -/
theorem dedupGo_eq_specDedupGo :
    ∀ (l : List Candidate) (u1 u2 : List Int), (∀ t, t ∈ u1 ↔ t ∈ u2) →
      dedupGo l u1 = specDedupGo l u2 := by
  intro l
  induction l with
  | nil => intro u1 u2 _; rfl
  | cons s rest ih =>
    intro u1 u2 hmem
    have hany : u1.any (fun range => decide (|s.timestamp - range| < 30))
        = u2.any (fun t => decide (|s.timestamp - t| < 30)) := by
      rw [Bool.eq_iff_iff]
      simp only [List.any_eq_true]
      exact ⟨fun ⟨t, ht, hp⟩ => ⟨t, (hmem t).1 ht, hp⟩,
             fun ⟨t, ht, hp⟩ => ⟨t, (hmem t).2 ht, hp⟩⟩
    simp only [dedupGo, specDedupGo, hany]
    by_cases h : u2.any (fun t => decide (|s.timestamp - t| < 30)) = true
    · rw [if_pos h, if_pos h]
      exact ih u1 u2 hmem
    · rw [if_neg h, if_neg h]
      refine congrArg (List.cons s) (ih _ _ fun t => ?_)
      simp only [List.mem_append, List.mem_cons, List.mem_singleton, hmem t]
      tauto

/-- `deduplicateSegments` is the specification's accumulate-and-reject walk. -/
theorem deduplicateSegments_eq_spec (l : List Candidate) :
    deduplicateSegments l = specDedup l := by
  match l with
  | [] => rfl
  | [x] => rfl
  | x :: y :: rest =>
    have h : ¬(x :: y :: rest).length ≤ 1 := by simp
    simp only [deduplicateSegments, if_neg h, specDedup]
    exact dedupGo_eq_specDedupGo _ [] [] (fun t => Iff.rfl)

/-- `updateIds` preserves distinctness of the tracked ids. -/
theorem updateIds_nodup (ids : List String) (botId : String) (h : ids.Nodup) :
    (updateIds ids botId).Nodup := by
  have hrem : (ids.filter (fun id => id ≠ botId)).Nodup := h.filter _
  have hnotin : botId ∉ ids.filter (fun id => id ≠ botId) := by
    intro hmem
    have := List.of_mem_filter hmem
    simp at this
  have hcons : (botId :: ids.filter (fun id => id ≠ botId)).Nodup :=
    List.nodup_cons.mpr ⟨hnotin, hrem⟩
  unfold updateIds
  by_cases h5 : 5 < (botId :: ids.filter (fun id => id ≠ botId)).length
  · simp only [if_pos h5]
    exact hcons.sublist (List.take_sublist _ _)
  · simp only [if_neg h5]
    exact hcons

/-- After an update the id list never exceeds five entries. -/
theorem updateIds_length (ids : List String) (botId : String) :
    (updateIds ids botId).length ≤ 5 := by
  unfold updateIds
  by_cases h5 : 5 < (botId :: ids.filter (fun id => id ≠ botId)).length
  · simp only [if_pos h5]
    simp [List.length_take]
  · simp only [if_neg h5]
    omega

/-- The just-tracked id always ends up in front. -/
theorem updateIds_head (ids : List String) (botId : String) :
    (updateIds ids botId).head? = some botId := by
  unfold updateIds
  by_cases h5 : 5 < (botId :: ids.filter (fun id => id ≠ botId)).length
  · simp only [if_pos h5, List.take_succ_cons, List.head?_cons]
  · simp only [if_neg h5, List.head?_cons]

/-- Everything the dedup worker returns came from its input and was not
already seen. -/
theorem insertionDedupGo_mem :
    ∀ (l seen : List String) (y : String),
      y ∈ insertionDedupGo l seen → y ∈ l ∧ y ∉ seen := by
  intro l
  induction l with
  | nil => intro seen y hy; simp [insertionDedupGo] at hy
  | cons x xs ih =>
    intro seen y hy
    rw [insertionDedupGo] at hy
    by_cases hx : x ∈ seen
    · rw [if_pos hx] at hy
      obtain ⟨h1, h2⟩ := ih seen y hy
      exact ⟨List.mem_cons_of_mem _ h1, h2⟩
    · rw [if_neg hx] at hy
      rcases List.mem_cons.mp hy with h | h
      · exact ⟨by simp [h], h ▸ hx⟩
      · obtain ⟨h1, h2⟩ := ih _ y h
        refine ⟨List.mem_cons_of_mem _ h1, fun hc => h2 ?_⟩
        exact List.mem_append_left _ hc

/-- The dedup worker returns distinct entries. -/
theorem insertionDedupGo_nodup : ∀ l seen : List String, (insertionDedupGo l seen).Nodup := by
  intro l
  induction l with
  | nil => intro seen; simp [insertionDedupGo]
  | cons x xs ih =>
    intro seen
    rw [insertionDedupGo]
    by_cases hx : x ∈ seen
    · rw [if_pos hx]; exact ih seen
    · rw [if_neg hx]
      refine List.nodup_cons.mpr ⟨fun hmem => ?_, ih _⟩
      exact (insertionDedupGo_mem _ _ _ hmem).2 (List.mem_append_right _ (by simp))

/-- `insertionDedup` returns distinct entries (a JS `Set` holds each value
once). -/
theorem insertionDedup_nodup (l : List String) : (insertionDedup l).Nodup :=
  insertionDedupGo_nodup l []

/-! ## Claim theorems -/

/-- C4 (counterexample): on the spec's three-segment end-to-end scenario with
`maxMoments = 2`, `findKeyMoments` does NOT return the meeting-start moment
at t=0 together with the budget moment at t=20 — the actual output is the
moments at t=20 and t=600, because the t=0 "Meeting start" candidate is
deduplicated away (its timestamp is within 30 seconds of the
higher-importance t=20 segment). -/
theorem findKeyMoments_example_counterexample :
    (findKeyMomentsPipeline exTranscript 2).map (fun c => c.timestamp) ≠ [0, 20]
    ∧ (findKeyMomentsPipeline exTranscript 2).map (fun c => c.timestamp) = [20, 600] := by
  constructor
  · decide
  · decide

/-- C4 (amended): on the spec's three-segment scenario with `maxMoments = 2`,
`findKeyMoments` returns exactly 2 key moments — the budget/issue segment at
t=20 (speaker "B", importance 9, described "Problem discussion") and the
conclusion segment at t=600 (speaker "A", described "Summary or conclusion");
the meeting-start moment at t=0 is dropped by the 30-second deduplication
against the more important t=20 segment. -/
theorem findKeyMoments_example_amended :
    (findKeyMomentsPipeline exTranscript 2).map
        (fun c => (c.timestamp, c.speaker, c.importance, c.description))
      = [(20, "B", 9, "Problem discussion"), (600, "A", 4, "Summary or conclusion")] := by
  decide

/-- C5: for every chunk, `findImportantSegments` emits a candidate exactly
for the segments whose importance score — the sum of the weights of all
matching categories (importance 3, summary 4, obligation 2, decision 3,
problem 2, solution 2, next-steps 3) plus the length bonus
`min(2, ⌊words/20⌋)` — is positive, carrying that score as importance and
the fixed-priority description (summary first, then next-steps, decision,
problem, solution, else the score-based label); `determineDescription`
itself computes that priority rule. -/
theorem findImportantSegments_matches_spec :
    (∀ ts : List Transcript, findImportantSegments ts = specImportantSegments ts)
    ∧ (∀ (text : String) (importance : Nat),
        determineDescription text importance = specDescription text importance) :=
  ⟨findImportantSegments_eq_spec, determineDescription_eq_spec⟩

/-- C6: `deduplicateSegments` is exactly the spec's greedy walk — keep a
candidate unless its timestamp is within 30 seconds of an already-accepted
timestamp, accepted timestamps accumulating as the walk proceeds — and on
the candidates [{t=100,imp=5}, {t=110,imp=3}, {t=200,imp=1}] the t=110
candidate is dropped against the kept t=100, so the pipeline's final
chronological output is the moments at timestamps 100 and 200. -/
theorem deduplicateSegments_greedy :
    (∀ l : List Candidate, deduplicateSegments l = specDedup l)
    ∧ (deduplicateSegments (List.insertionSort impGE dedupCands)).map (fun c => c.timestamp)
        = [100, 200]
    ∧ (rankMoments dedupCands 5).map (fun c => c.timestamp) = [100, 200] :=
  ⟨deduplicateSegments_eq_spec, by decide, by decide⟩

/-- C8: a failing recent-bots tracking write (`trackBot` outcome) neither
aborts a search call nor changes its result: the outcome component of the
tool run always equals the pure search result, and in particular coincides
with the outcome under a successful write — for both `intelligentSearch`
and the plain transcript search. -/
theorem tracking_failure_harmless (trackBot : Except String Unit) (session : Option Session)
    (botId : String) (ts : List Transcript) (speaker : Option String) (tr : TimeRange)
    (searchTerms : String) (query : String) :
    (runIntelligentSearch trackBot session botId ts speaker tr searchTerms).1
        = intelligentSearchCore ts speaker tr searchTerms
    ∧ (runIntelligentSearch trackBot session botId ts speaker tr searchTerms).1
        = (runIntelligentSearch (Except.ok ()) session botId ts speaker tr searchTerms).1
    ∧ (runSearchTranscript trackBot session botId ts query).1 = searchTranscript ts query
    ∧ (runSearchTranscript trackBot session botId ts query).1
        = (runSearchTranscript (Except.ok ()) session botId ts query).1 :=
  ⟨rfl, rfl, rfl, rfl⟩

/-- C9: after `updateRecentBots` runs on a session whose tracked ids are
distinct, the updated `recentBotIds` list is duplicate-free, has at most 5
entries, and starts with the just-tracked bot id — and the session-level
function indeed stores `updateIds`; the invariant persists across any
further sequence of tracked ids, whatever the tracking-store outcomes. -/
theorem updateRecentBots_invariant (ids : List String) (botId : String) (h : ids.Nodup) :
    (updateIds ids botId).Nodup
    ∧ (updateIds ids botId).length ≤ 5
    ∧ (updateIds ids botId).head? = some botId
    ∧ (∀ (s : Session) (trackBot : Except String Unit), s.recentBotIds = some ids →
        updateRecentBots (some s) botId trackBot
          = some { s with recentBotIds := some (updateIds ids botId) })
    ∧ (∀ calls : List String,
        (List.foldl updateIds (updateIds ids botId) calls).Nodup
        ∧ (List.foldl updateIds (updateIds ids botId) calls).length ≤ 5) := by
  refine ⟨updateIds_nodup ids botId h, updateIds_length ids botId, updateIds_head ids botId,
    ?_, ?_⟩
  · intro s trackBot hs
    cases trackBot <;> simp [updateRecentBots, hs]
  · intro calls
    have key : ∀ (cs : List String) (l : List String), l.Nodup → l.length ≤ 5 →
        (List.foldl updateIds l cs).Nodup ∧ (List.foldl updateIds l cs).length ≤ 5 := by
      intro cs
      induction cs with
      | nil => intro l hn hl; exact ⟨hn, hl⟩
      | cons c rest ih =>
        intro l hn _
        exact ih _ (updateIds_nodup l c hn) (updateIds_length l c)
    exact key calls _ (updateIds_nodup ids botId h) (updateIds_length ids botId)

/-- Witness for C9 at a concrete session state. -/
theorem updateRecentBots_invariant_witness :
    (["a", "b", "c", "d", "e"] : List String).Nodup
    ∧ (updateIds ["a", "b", "c", "d", "e"] "c").Nodup
    ∧ (updateIds ["a", "b", "c", "d", "e"] "c").length ≤ 5
    ∧ (updateIds ["a", "b", "c", "d", "e"] "c").head? = some "c" :=
  ⟨by decide,
   (updateRecentBots_invariant ["a", "b", "c", "d", "e"] "c" (by decide)).1,
   (updateRecentBots_invariant ["a", "b", "c", "d", "e"] "c" (by decide)).2.1,
   (updateRecentBots_invariant ["a", "b", "c", "d", "e"] "c" (by decide)).2.2.1⟩

/-- C10: the "Main Topics Discussed" section of the `findKeyMoments` report
displays at most `topicLimit` unique topics — 10 for granularity "high",
7 for "medium", 5 for "low" — and is omitted (`none`) exactly when there
are no unique topics; the displayed topics are also duplicate-free. -/
theorem mainTopicsSection_capped (topics : List String) (g : Granularity) :
    ((mainTopicsSection (insertionDedup topics) g).getD []).length ≤ topicLimit g
    ∧ (mainTopicsSection (insertionDedup topics) g = none ↔ insertionDedup topics = [])
    ∧ ((mainTopicsSection (insertionDedup topics) g).getD []).Nodup
    ∧ topicLimit .high = 10 ∧ topicLimit .medium = 7 ∧ topicLimit .low = 5 := by
  refine ⟨?_, ?_, ?_, rfl, rfl, rfl⟩
  · by_cases h : 0 < (insertionDedup topics).length
    · simp only [mainTopicsSection, if_pos h, Option.getD_some, List.length_take]
      omega
    · simp [mainTopicsSection, h]
  · by_cases h : 0 < (insertionDedup topics).length
    · simp only [mainTopicsSection, if_pos h]
      constructor
      · intro hcontra; cases hcontra
      · intro hnil; rw [hnil] at h; simp at h
    · have : insertionDedup topics = [] := by
        cases hd : insertionDedup topics with
        | nil => rfl
        | cons a l => rw [hd] at h; simp at h
      simp [mainTopicsSection, this]
  · by_cases h : 0 < (insertionDedup topics).length
    · simp only [mainTopicsSection, if_pos h, Option.getD_some]
      exact (insertionDedup_nodup topics).sublist (List.take_sublist _ _)
    · simp [mainTopicsSection, h]

/-- C2 (counterexample): with the explicit filter `startTime = 10` and the
query "show budget discussion after 5", the time-pattern loop overwrites the
explicit value with the query-derived 300 seconds — the explicitly supplied
filter value is NOT the one used. -/
theorem explicit_filter_overridden_counterexample :
    (resolveParams (some { startTime := some 10 }) "show budget discussion after 5" none).2.startTime
      = some 300
    ∧ some (300 : Int) ≠ some (10 : Int) :=
  ⟨by decide, by decide⟩

/-- C2 (amended): an explicit `filters.speaker` does take precedence over a
query-derived speaker, but query-derived time values do the opposite: the
first time pattern that matches the query overwrites the explicit
`startTime`/`endTime` filters for the field(s) it sets ("between" both,
"after" only the start, "before" only the end), regardless of what was
supplied. -/
theorem filter_precedence_amended :
    (∀ (f : Filters) (q : String) (qs : Option String) (s : String),
        f.speaker = some s → s ≠ "" → (resolveParams (some f) q qs).1 = some s)
    ∧ (∀ (f : Filters) (q : String) (qs : Option String) (a b : Nat × Option Nat),
        matchBetween q = some (a, b) →
          (resolveParams (some f) q qs).2
            = { startTime := some (minutesToSeconds a), endTime := some (minutesToSeconds b) })
    ∧ (∀ (f : Filters) (q : String) (qs : Option String) (m : Nat × Option Nat),
        matchBetween q = none → matchAfter q = some m →
          (resolveParams (some f) q qs).2
            = { startTime := some (minutesToSeconds m), endTime := f.endTime })
    ∧ (∀ (f : Filters) (q : String) (qs : Option String) (m : Nat × Option Nat),
        matchBetween q = none → matchAfter q = none → matchBefore q = some m →
          (resolveParams (some f) q qs).2
            = { startTime := f.startTime, endTime := some (minutesToSeconds m) }) := by
  refine ⟨?_, ?_, ?_, ?_⟩
  · intro f q qs s hs hne
    simp [resolveParams, hs, hne]
  · intro f q qs a b h
    simp [resolveParams, applyTimePatterns, h]
  · intro f q qs m h1 h2
    simp [resolveParams, applyTimePatterns, h1, h2]
  · intro f q qs m h1 h2 h3
    simp [resolveParams, applyTimePatterns, h1, h2, h3]

/-- Witness for C2 (amended) at concrete calls: an explicit speaker survives
a conflicting query-derived speaker, and the "after 5" pattern overwrites an
explicit `startTime = 10` while keeping the (absent) end filter. -/
theorem filter_precedence_amended_witness :
    (resolveParams (some { speaker := some "Alice", startTime := some 10 })
        "what did Bob say after 5" (some "Bob")).1 = some "Alice"
    ∧ (resolveParams (some { startTime := some 10 }) "show budget discussion after 5" none).2
        = { startTime := some 300, endTime := none } := by
  constructor
  · exact filter_precedence_amended.1 _ _ _ "Alice" rfl (by decide)
  · exact (filter_precedence_amended.2.2.1 { startTime := some 10 }
      "show budget discussion after 5" none (5, none) (by decide) (by decide)).trans (by decide)

/-- C3 (counterexample): on a one-segment meeting and residual search term
"zebra" (no speaker, no time filter), Tier 4 finds nothing, yet the
orchestrator returns Tier 4's `No results found` outcome — not the Tier 5
segment listing, which here would be the (non-empty) full segment list. -/
theorem tier4_empty_returned_counterexample :
    searchTranscript tierTs "zebra" = none
    ∧ intelligentSearchCore tierTs none ⟨none, none⟩ "zebra" = .noResults "zebra"
    ∧ searchVideoSegment tierTs ⟨none, none⟩ none = some tierTs
    ∧ SearchOutcome.noResults "zebra" ≠ SearchOutcome.segmentListing tierTs :=
  ⟨by decide, by decide, by decide, by decide⟩

/-- C3 (amended): whenever the residual search terms are non-blank and
tiers 1–3 fall through, Tier 4's result is the search's final answer even
when the plain substring search matches no segment — the orchestrator
returns the `No results found` outcome and never proceeds to Tier 5. -/
theorem tier4_result_is_final_amended (ts : List Transcript) (speaker : Option String)
    (tr : TimeRange) (searchTerms : String)
    (hterms : jsTrim searchTerms ≠ "")
    (h1 : tier1Result ts speaker tr searchTerms = none)
    (h2 : tier2Result ts speaker tr = none)
    (h3 : tier3Result ts searchTerms = none)
    (h4 : searchTranscript ts searchTerms = none) :
    intelligentSearchCore ts speaker tr searchTerms = .noResults searchTerms := by
  simp [intelligentSearchCore, h1, h2, h3, h4, hterms]

/-- Witness for C3 (amended) at the concrete one-segment meeting. -/
theorem tier4_result_is_final_amended_witness :
    jsTrim "zebra" ≠ ""
    ∧ tier1Result tierTs none ⟨none, none⟩ "zebra" = none
    ∧ tier2Result tierTs none ⟨none, none⟩ = none
    ∧ tier3Result tierTs "zebra" = none
    ∧ searchTranscript tierTs "zebra" = none
    ∧ intelligentSearchCore tierTs none ⟨none, none⟩ "zebra"
        = SearchOutcome.noResults "zebra" :=
  ⟨by decide, by decide, by decide, by decide, by decide,
   tier4_result_is_final_amended tierTs none ⟨none, none⟩ "zebra"
     (by decide) (by decide) (by decide) (by decide) (by decide)⟩

/-- The chunk loop flattens back to the pending chunk followed by the
remaining input. -/
theorem groupGo_join (d : Int) :
    ∀ (ts cur : List Transcript) (cs : Int), (groupGo d ts cur cs).flatten = cur ++ ts := by
  intro ts
  induction ts with
  | nil =>
    intro cur cs
    by_cases h : cur.isEmpty
    · simp [groupGo, h, List.isEmpty_iff.mp h]
    · simp [groupGo, h]
  | cons s rest ih =>
    intro cur cs
    rw [groupGo]
    by_cases h : (cur.isEmpty || decide (s.start_time - cs ≤ d)) = true
    · rw [if_pos h, ih]
      simp
    · rw [if_neg h]
      simp [ih]

/-- The head of a chunk is unchanged by appending at the back. -/
theorem headI_append_singleton (cur : List Transcript) (s : Transcript) (h : cur ≠ []) :
    (cur ++ [s]).headI = cur.headI := by
  cases cur with
  | nil => exact absurd rfl h
  | cons a l => rfl

/-- The chunk loop, started with a non-empty current chunk, emits a first
chunk with the same head. -/
theorem groupGo_first (d : Int) :
    ∀ (ts cur : List Transcript) (cs : Int), cur ≠ [] →
      ∃ c l, groupGo d ts cur cs = c :: l ∧ c.headI = cur.headI := by
  intro ts
  induction ts with
  | nil =>
    intro cur cs h
    refine ⟨cur, [], ?_, rfl⟩
    simp [groupGo, List.isEmpty_iff, h]
  | cons s rest ih =>
    intro cur cs h
    rw [groupGo]
    by_cases hc : (cur.isEmpty || decide (s.start_time - cs ≤ d)) = true
    · rw [if_pos hc]
      obtain ⟨c, l, heq, hhead⟩ := ih (cur ++ [s]) cs (by simp)
      exact ⟨c, l, heq, hhead.trans (headI_append_singleton cur s h)⟩
    · rw [if_neg hc]
      exact ⟨cur, _, rfl, rfl⟩

/-- Invariant of the chunk loop: every emitted chunk is non-empty, the span
from each chunk's head to each of its members is at most `d`, and
consecutive chunk heads are more than `d` apart. -/
theorem groupGo_inv (d : Int) :
    ∀ (ts cur : List Transcript) (cs : Int), cur ≠ [] → cur.headI.start_time = cs →
      (∀ x ∈ cur.tail, x.start_time - cs ≤ d) →
      (∀ c ∈ groupGo d ts cur cs,
        c ≠ [] ∧ ∀ x ∈ c.tail, x.start_time - c.headI.start_time ≤ d)
      ∧ List.Chain' (fun c₁ c₂ => d < c₂.headI.start_time - c₁.headI.start_time)
          (groupGo d ts cur cs) := by
  intro ts
  induction ts with
  | nil =>
    intro cur cs hne hhead htail
    constructor
    · intro c hc
      have : c = cur := by
        simp only [groupGo, List.isEmpty_iff, if_neg hne] at hc
        simpa using hc
      subst this
      exact ⟨hne, by rw [hhead]; exact htail⟩
    · simp only [groupGo, List.isEmpty_iff, if_neg hne]
      exact List.chain'_singleton _
  | cons s rest ih =>
    intro cur cs hne hhead htail
    rw [groupGo]
    have hcurE : cur.isEmpty = false := by simpa [List.isEmpty_iff] using hne
    by_cases hc : s.start_time - cs ≤ d
    · rw [if_pos (by simp [hcurE, hc])]
      refine ih (cur ++ [s]) cs (by simp) (by rw [headI_append_singleton cur s hne, hhead]) ?_
      intro x hx
      have htl : (cur ++ [s]).tail = cur.tail ++ [s] := by
        cases cur with
        | nil => exact absurd rfl hne
        | cons a l => simp
      rw [htl] at hx
      rcases List.mem_append.mp hx with h | h
      · exact htail x h
      · rw [List.mem_singleton.mp h]
        exact hc
    · rw [if_neg (by simp [hcurE, hc])]
      have hrec := ih [s] s.start_time (by simp) rfl (by simp)
      constructor
      · intro c hcmem
        rcases List.mem_cons.mp hcmem with h | h
        · subst h
          exact ⟨hne, by rw [hhead]; exact htail⟩
        · exact hrec.1 c h
      · obtain ⟨c0, l0, heq, hh0⟩ := groupGo_first d rest [s] s.start_time (by simp)
        rw [List.chain'_cons']
        refine ⟨?_, hrec.2⟩
        intro b hb
        rw [heq] at hb
        simp only [List.head?_cons, Option.mem_def, Option.some.injEq] at hb
        subst hb
        rw [hh0, hhead]
        simp only [List.headI]
        omega

/-- C7: chunking is an order-preserving partition — the chunks flatten back
to the input, every chunk is non-empty, a segment sits in a chunk exactly
under the greedy rule (each non-head member is within `maxChunkDuration` of
its chunk's reference segment, and each new chunk's reference segment is
more than `maxChunkDuration` past the previous chunk's reference time) —
and empty input yields the empty chunk list. -/
theorem groupTranscriptsIntoChunks_partition (d : Int) (ts : List Transcript) :
    (groupTranscriptsIntoChunks ts d).flatten = ts
    ∧ (∀ c ∈ groupTranscriptsIntoChunks ts d, c ≠ [])
    ∧ (∀ c ∈ groupTranscriptsIntoChunks ts d, ∀ x ∈ c.tail,
        x.start_time - c.headI.start_time ≤ d)
    ∧ List.Chain' (fun c₁ c₂ => d < c₂.headI.start_time - c₁.headI.start_time)
        (groupTranscriptsIntoChunks ts d)
    ∧ groupTranscriptsIntoChunks ([] : List Transcript) d = [] := by
  cases ts with
  | nil => exact ⟨rfl, by simp [groupTranscriptsIntoChunks], by simp [groupTranscriptsIntoChunks],
      by simp [groupTranscriptsIntoChunks], rfl⟩
  | cons t rest =>
    have hstep : groupTranscriptsIntoChunks (t :: rest) d = groupGo d rest [t] t.start_time := by
      simp [groupTranscriptsIntoChunks, groupGo]
    have hinv := groupGo_inv d rest [t] t.start_time (by simp) (by simp) (by simp)
    refine ⟨?_, ?_, ?_, ?_, rfl⟩
    · rw [hstep, groupGo_join]
      rfl
    · intro c hc
      exact (hinv.1 c (hstep ▸ hc)).1
    · intro c hc
      exact (hinv.1 c (hstep ▸ hc)).2
    · rw [hstep]
      exact hinv.2

/-- Elements kept by the dedup loop are at least 30 seconds away from every
previously accepted timestamp. -/
theorem dedupGo_far_from_used :
    ∀ (l : List Candidate) (used : List Int) (x : Candidate),
      x ∈ dedupGo l used → ∀ u ∈ used, ¬ |x.timestamp - u| < 30 := by
  intro l
  induction l with
  | nil => intro used x hx; simp [dedupGo] at hx
  | cons s rest ih =>
    intro used x hx u hu
    rw [dedupGo] at hx
    by_cases hc : used.any (fun range => decide (|s.timestamp - range| < 30)) = true
    · rw [if_pos hc] at hx
      exact ih used x hx u hu
    · rw [if_neg hc] at hx
      rcases List.mem_cons.mp hx with h | h
      · subst h
        intro habs
        exact hc (List.any_eq_true.mpr ⟨u, hu, by simpa using habs⟩)
      · exact ih _ x h u (List.mem_append_left _ hu)

/-- Surviving candidates are pairwise at least 30 seconds apart, hence have
pairwise distinct timestamps. -/
theorem dedupGo_pairwise_far :
    ∀ (l : List Candidate) (used : List Int),
      (dedupGo l used).Pairwise (fun a b => ¬ |a.timestamp - b.timestamp| < 30) := by
  intro l
  induction l with
  | nil => intro used; simp [dedupGo]
  | cons s rest ih =>
    intro used
    rw [dedupGo]
    by_cases hc : used.any (fun range => decide (|s.timestamp - range| < 30)) = true
    · rw [if_pos hc]
      exact ih used
    · rw [if_neg hc]
      refine List.pairwise_cons.mpr ⟨?_, ih _⟩
      intro b hb habs
      have := dedupGo_far_from_used rest (used ++ [s.timestamp]) b hb s.timestamp
        (List.mem_append_right _ (by simp))
      rw [abs_sub_comm] at habs
      exact this habs

/-- `deduplicateSegments` output has pairwise distinct timestamps. -/
theorem deduplicateSegments_distinct (l : List Candidate) :
    (deduplicateSegments l).Pairwise (fun a b => a.timestamp ≠ b.timestamp) := by
  unfold deduplicateSegments
  by_cases h : l.length ≤ 1
  · rw [if_pos h]
    match l, h with
    | [], _ => simp
    | [x], _ => simp
  · rw [if_neg h]
    refine (dedupGo_pairwise_far l []).imp ?_
    intro a b hfar heq
    exact hfar (by simp [heq])

/-- C1: for every candidate set and `maxMoments ≥ 1`, the ranking pipeline
truncates AFTER the chronological re-sort: the returned moments are listed
in ascending timestamp order, they are exactly `min maxMoments |survivors|`
many elements of the deduplication survivors, every survivor left out has a
timestamp at least as late as every returned moment (so the earliest
survivors are kept, not the most important ones — survivor timestamps being
pairwise distinct), and on survivors at timestamps [10,50,90,500,900] with
importances [1,9,1,1,1] and `maxMoments = 3` the output is the moments at
[10,50,90]. -/
theorem rankMoments_truncates_chronologically (cands : List Candidate) (m : Nat) (h : 1 ≤ m) :
    List.Pairwise tsLE (rankMoments cands m)
    ∧ (rankMoments cands m).length
        = min m (deduplicateSegments (List.insertionSort impGE cands)).length
    ∧ (∀ x ∈ rankMoments cands m, x ∈ deduplicateSegments (List.insertionSort impGE cands))
    ∧ (∀ s ∈ deduplicateSegments (List.insertionSort impGE cands),
        s ∉ rankMoments cands m → ∀ o ∈ rankMoments cands m, o.timestamp ≤ s.timestamp)
    ∧ (deduplicateSegments (List.insertionSort impGE cands)).Pairwise
        (fun a b => a.timestamp ≠ b.timestamp)
    ∧ (rankMoments truncationCands 3).map (fun c => c.timestamp) = [10, 50, 90] := by
  have hrank : rankMoments cands m
      = (List.insertionSort tsLE (deduplicateSegments (List.insertionSort impGE cands))).take m :=
    rfl
  set survivors := deduplicateSegments (List.insertionSort impGE cands) with hsurv
  set sorted := List.insertionSort tsLE survivors with hsorted
  have hpair : List.Pairwise tsLE sorted := List.sorted_insertionSort tsLE survivors
  have hperm : sorted.Perm survivors := List.perm_insertionSort tsLE survivors
  refine ⟨?_, ?_, ?_, ?_, deduplicateSegments_distinct _, by decide⟩
  · rw [hrank]
    exact hpair.sublist (List.take_sublist m sorted)
  · rw [hrank, List.length_take, hperm.length_eq]
  · intro x hx
    rw [hrank] at hx
    exact hperm.mem_iff.mp (List.mem_of_mem_take hx)
  · intro s hs hsnot o ho
    rw [hrank] at hsnot ho
    have hs' : s ∈ sorted := hperm.mem_iff.mpr hs
    have hsplit : sorted = sorted.take m ++ sorted.drop m := (List.take_append_drop m sorted).symm
    have hdrop : s ∈ sorted.drop m := by
      rcases List.mem_append.mp (hsplit ▸ hs') with h' | h'
      · exact absurd h' hsnot
      · exact h'
    have hp : List.Pairwise tsLE (sorted.take m ++ sorted.drop m) := hsplit ▸ hpair
    exact (List.pairwise_append.mp hp).2.2 o ho s hdrop

/-- Witness for C1 at the spec's own truncation scenario. -/
theorem rankMoments_truncates_chronologically_witness :
    1 ≤ 3
    ∧ List.Pairwise tsLE (rankMoments truncationCands 3)
    ∧ (rankMoments truncationCands 3).map (fun c => c.timestamp) = [10, 50, 90] :=
  ⟨by decide,
   (rankMoments_truncates_chronologically truncationCands 3 (by decide)).1,
   (rankMoments_truncates_chronologically truncationCands 3 (by decide)).2.2.2.2.2⟩
